import Mathlib

/-!
Shallow embedding of the procon_rs template engine
(src/template.rs, src/commands/new.rs, src/config.rs, src/error.rs).

Strings are Lean `String`s; file contents are manipulated at the
`List Char` level so that Rust's `str::replace` can be modelled by
an explicit recursion.  The filesystem consumed by the template
loader is modelled by the inductive `FSNode`; the filesystem produced
by the materializer is modelled by `DestFS` (paths as segment lists).
-/

namespace ProconRs

/-! ## Rust `str::replace` (literal, leftmost, non-overlapping) -/

/-- The scan of Rust `str::replace` for a non-empty pattern `p :: ps`:
at each position, if the pattern is a prefix of the rest of the text,
emit the replacement and continue after the matched region; otherwise
keep the character and continue.  The `fuel` argument only makes the
recursion structural (each step consumes at least one character, so
any `fuel ≥ s.length` gives the same result); it is fixed to
`s.length` by `replaceGo` below. -/
def replaceF (p : Char) (ps rep : List Char) : Nat → List Char → List Char
  | _, [] => []
  | 0, s => s
  | fuel + 1, c :: rest =>
    if (p :: ps).isPrefixOf (c :: rest) then
      rep ++ replaceF p ps rep fuel (rest.drop ps.length)
    else
      c :: replaceF p ps rep fuel rest

/-- The scan of Rust `str::replace` for the non-empty pattern
`p :: ps`. -/
def replaceGo (p : Char) (ps rep : List Char) (s : List Char) : List Char :=
  replaceF p ps rep s.length s

/-- Rust `str::replace` on char lists.  For an empty pattern Rust
inserts the replacement at every character boundary. -/
def listReplace (s pat rep : List Char) : List Char :=
  match pat with
  | [] => rep ++ s.flatMap (fun c => c :: rep)
  | p :: ps => replaceGo p ps rep s

/-- Rust `s.replace(pat, rep)` on `String`. -/
def rustReplace (s pat rep : String) : String :=
  String.mk (listReplace s.data pat.data rep.data)

/-! ## Data model: `Template` (src/template.rs)

Rust stores `files : HashMap<String, String>`; the map is modelled as
an association list with `HashMap::insert` semantics (`insertA`). -/

/-- The `Template.files` map: relative path ↦ file content. -/
abbrev Template := List (String × String)

/-- `HashMap::insert`: replace the value of an existing key, else add
the binding. -/
def insertA (k v : String) : List (String × String) → List (String × String)
  | [] => [(k, v)]
  | (k', v') :: rest => if k' = k then (k, v) :: rest else (k', v') :: insertA k v rest

/-- The key set of a template (`files.keys()`). -/
def keysOf (t : Template) : List String := t.map Prod.fst

/-! ## Errors (src/error.rs)

Payloads that are opaque to the engine (io::Error, toml errors) are
modelled as strings. -/

inductive ProconError where
  | ProjectExists (name : String)
  | ProjectNotFound
  | TemplateNotFound (detail : String)
  | ProjectCreationFailed (detail : String)
  | ConfigError (detail : String)
  | Io (detail : String)
  | TomlParse (detail : String)
  | TomlSerialize (detail : String)
  /-- `commands/new.rs` line 69 constructs
  `ProconError::TemplateNotFoundWithHint`, but `error.rs` declares no
  such variant, so the crate as given does not build.  The variant is
  added here so that `load_template` can be embedded exactly as
  written. -/
  | TemplateNotFoundWithHint (name : String)
deriving DecidableEq

/-! ## Source filesystem model

`file (some c)`: a file whose contents decode as the text `c`;
`file none`: a file `fs::read_to_string` fails on (e.g. binary);
`dir`: a readable directory; `badDir`: a directory `fs::read_dir`
fails on. -/

inductive FSNode where
  | file (content : Option String)
  | dir (entries : List (String × FSNode))
  | badDir

/-- Directory-entry lookup by name. -/
def lookupEntry (name : String) : List (String × FSNode) → Option FSNode
  | [] => none
  | (n, node) :: rest => if n = name then some node else lookupEntry name rest

/-- `path.join(name)` resolved against a node: `some` exactly when the
joined path exists. -/
def childOf : FSNode → String → Option FSNode
  | FSNode.dir entries, name => lookupEntry name entries
  | _, _ => none

/-! ## Template loading (src/template.rs) -/

/-- One iteration of the required-file loop of
`Template::load_from_path`: `exists()` check, then
`fs::read_to_string` (which fails with an I/O error on a directory or
an undecodable file). -/
def read_required (node : FSNode) (name : String) : Except ProconError String :=
  match childOf node name with
  | none => Except.error (ProconError.TemplateNotFound (name ++ " not found in template"))
  | some (FSNode.file (some c)) => Except.ok c
  | some _ => Except.error (ProconError.Io "read_to_string")

/-- The body of the `for entry in fs::read_dir(dir)?` loop of
`Template::load_directory_recursively`, iterating over a directory's
entries.  Directories recurse with the extended prefix; root-level
`main.cpp` / `CMakeLists.txt` are skipped; unreadable files are
silently skipped. -/
def walk_entries : List (String × FSNode) → String → List (String × String) →
    Except ProconError (List (String × String))
  | [], _, files => Except.ok files
  | (name, child) :: rest, pre, files =>
    let relative_path := if pre = "" then name else pre ++ "/" ++ name
    match child with
    | FSNode.dir es =>
      match walk_entries es relative_path files with
      | Except.error e => Except.error e
      | Except.ok files2 => walk_entries rest pre files2
    | FSNode.badDir => Except.error (ProconError.Io "read_dir")
    | FSNode.file content =>
      if pre = "" ∧ (name = "main.cpp" ∨ name = "CMakeLists.txt") then
        walk_entries rest pre files
      else
        match content with
        | some c => walk_entries rest pre (insertA relative_path c files)
        | none => walk_entries rest pre files
termination_by es _ _ => sizeOf es
decreasing_by
  all_goals
    simp only [List.cons.sizeOf_spec, Prod.mk.sizeOf_spec, FSNode.dir.sizeOf_spec]
    omega

/-- `Template::load_directory_recursively(dir, prefix, files)`:
`fs::read_dir` fails with an I/O error unless `dir` is a readable
directory. -/
def load_directory_recursively (node : FSNode) (pre : String)
    (files : List (String × String)) : Except ProconError (List (String × String)) :=
  match node with
  | FSNode.dir entries => walk_entries entries pre files
  | _ => Except.error (ProconError.Io "read_dir")

/-- `Template::load_from_path`: load the two required files (in the
order `main.cpp`, `CMakeLists.txt`, erroring on the first absent one),
then walk the tree. -/
def load_from_path (node : FSNode) : Except ProconError Template :=
  match read_required node "main.cpp" with
  | Except.error e => Except.error e
  | Except.ok m =>
    match read_required node "CMakeLists.txt" with
    | Except.error e => Except.error e
    | Except.ok c =>
      load_directory_recursively node ""
        (insertA "CMakeLists.txt" c (insertA "main.cpp" m []))

/-- `Template::from_embedded_content` (the `_name` argument is unused
in the source as well). -/
def from_embedded_content (_name : String) (main_cpp_content cmake_content : String) :
    Template :=
  insertA "CMakeLists.txt" cmake_content (insertA "main.cpp" main_cpp_content [])

/-- `Template::from_builtin`.  The embedded byte strings
`DEFAULT_MAIN_CPP` / `DEFAULT_CMAKE` come from
`include_str!("../templates/default/…")`; those template files are not
part of the source snapshot, so the contents are parameters here. -/
def from_builtin (default_main_cpp default_cmake : String) (template_name : String) :
    Except ProconError Template :=
  match template_name with
  | "default" =>
    Except.ok (from_embedded_content "default" default_main_cpp default_cmake)
  | _ => Except.error (ProconError.TemplateNotFound template_name)

/-! ## Template resolution (TemplateLoader, src/template.rs and
NewCommand::load_template, src/commands/new.rs) -/

/-- Ambient process environment.
`config_dir`: the entries of `<dirs::config_dir()>/procon_rs/templates`
when `dirs::config_dir()` is available, `none` otherwise.
`config_dir_path`: the textual path `dirs::config_dir()` returns.
`manifest_dir`: the entries of `$CARGO_MANIFEST_DIR/templates` when
that variable is set.
`stored_config`: whatever configuration the user has persisted on
disk (never read by `Config::load`). -/
structure Env where
  config_dir : Option (List (String × FSNode))
  config_dir_path : Option String
  manifest_dir : Option (List (String × FSNode))
  stored_config : Option (List (String × String))

/-- `TemplateLoader::find_template`: probe the user template directory
and return its path (here: the node it denotes); built-ins are never
consulted here. -/
def find_template (env : Env) (name : String) : Except ProconError FSNode :=
  match env.config_dir with
  | some entries =>
    match lookupEntry name entries with
    | some node => Except.ok node
    | none => Except.error (ProconError.TemplateNotFound name)
  | none => Except.error (ProconError.TemplateNotFound name)

/-- The `builtin_templates` list of `NewCommand::load_template`. -/
def builtin_templates : List String := ["default", "advanced"]

/-! ## Configuration (src/config.rs) -/

structure TemplateConfig where
  default : String
  path : String
deriving DecidableEq

structure ProjectConfig where
  cpp_standard : String
  cmake_minimum_version : String
deriving DecidableEq

structure Config where
  template : TemplateConfig
  project : ProjectConfig
deriving DecidableEq

/-- `impl Default for Config` (the `path` field joins
`procon_rs/templates` under `dirs::config_dir()`, falling back to
`"."`). -/
def Config.defaultFor (config_dir_path : Option String) : Config where
  template :=
    { default := "default"
      path := (config_dir_path.getD ".") ++ "/procon_rs/templates" }
  project :=
    { cpp_standard := "17"
      cmake_minimum_version := "3.16" }

/-- `Config::load`: the source returns `Ok(Config::default())`
unconditionally ("For now, just return default config"); the persisted
configuration is taken as an argument to express that it is ignored. -/
def Config.load (_stored : Option (List (String × String)))
    (config_dir_path : Option String) : Except ProconError Config :=
  Except.ok (Config.defaultFor config_dir_path)

/-- `Config::load().unwrap_or_default()` as evaluated at the top of
`NewCommand::execute`. -/
def configOf (env : Env) : Config :=
  match Config.load env.stored_config env.config_dir_path with
  | Except.ok c => c
  | Except.error _ => Config.defaultFor env.config_dir_path

/-- `NewCommand::load_template`: user template first (no fallback on
its failure), then the hard-coded builtin list backed by
`$CARGO_MANIFEST_DIR/templates`, else `TemplateNotFound`. -/
def load_template (env : Env) (template_name : String) (_config : Config) :
    Except ProconError Template :=
  match find_template env template_name with
  | Except.ok node => load_from_path node
  | Except.error _ =>
    if builtin_templates.contains template_name then
      match env.manifest_dir with
      | some entries =>
        match lookupEntry template_name entries with
        | some node => load_from_path node
        | none => Except.error (ProconError.TemplateNotFoundWithHint template_name)
      | none => Except.error (ProconError.TemplateNotFoundWithHint template_name)
    else
      Except.error (ProconError.TemplateNotFound template_name)

/-! ## Variable substitution (Template::apply_variables and
NewCommand::process_template_variables) -/

/-- The literal placeholder `{{PROJECT_NAME}}` (braces escaped). -/
def projectNameToken : String := "\x7b\x7bPROJECT_NAME\x7d\x7d"

/-- The literal placeholder `{{CMAKE_VERSION}}` (braces escaped). -/
def cmakeVersionToken : String := "\x7b\x7bCMAKE_VERSION\x7d\x7d"

/-- The literal placeholder `{{CPP_STANDARD}}` (braces escaped). -/
def cppStandardToken : String := "\x7b\x7bCPP_STANDARD\x7d\x7d"

/-- `Template::apply_variables`: replace the project-name placeholder
in every file's content; a fresh map is built with the same keys. -/
def apply_variables (t : Template) (project_name : String) : Template :=
  t.map (fun kv => (kv.1, rustReplace kv.2 projectNameToken project_name))

/-- `NewCommand::process_template_variables`: the three chained
`str::replace` calls applied to every file's content. -/
def process_template_variables (t : Template) (project_name : String)
    (config : Config) : Template :=
  t.map (fun kv =>
    (kv.1,
      rustReplace
        (rustReplace
          (rustReplace kv.2 projectNameToken project_name)
          cmakeVersionToken config.project.cmake_minimum_version)
        cppStandardToken config.project.cpp_standard))

/-! ## Materialization (Template::copy_to) -/

/-- A relative path as a list of its `/`-separated segments. -/
abbrev FPath := List (List Char)

/-- Split a char list at `/` separators (the segments `PathBuf::join`
resolves a relative key into). -/
def splitRel : List Char → List (List Char)
  | [] => [[]]
  | c :: rest =>
    match splitRel rest with
    | [] => [[]]
    | seg :: segs => if c = '/' then [] :: seg :: segs else (c :: seg) :: segs

/-- The segment path a template key denotes under the destination. -/
def splitPath (s : String) : FPath := splitRel s.data

/-- The destination filesystem subtree rooted at the project path:
files and directories keyed by segment paths relative to that root. -/
structure DestFS where
  dirs : List FPath
  filesD : List (FPath × String)

/-- `fs::write` semantics for the file table (overwrite or add). -/
def insertF (p : FPath) (v : String) : List (FPath × String) → List (FPath × String)
  | [] => [(p, v)]
  | (q, w) :: rest => if q = p then (p, v) :: rest else (q, w) :: insertF p v rest

/-- `fs::create_dir_all(p)`: creates `p` and every ancestor; fails
with an I/O error when a regular file occupies `p` or an ancestor;
succeeds (without change) on directories that already exist. -/
def create_dir_all (p : FPath) (fs : DestFS) : Except ProconError DestFS :=
  if ∃ q ∈ p.inits, ∃ kv ∈ fs.filesD, kv.1 = q then
    Except.error (ProconError.Io "create_dir_all")
  else
    Except.ok { fs with dirs := fs.dirs ++ p.inits }

/-- `fs::write(p, content)`: fails with an I/O error when `p` is an
existing directory, otherwise (over)writes the file. -/
def fs_write (p : FPath) (content : String) (fs : DestFS) : Except ProconError DestFS :=
  if p ∈ fs.dirs then
    Except.error (ProconError.Io "write")
  else
    Except.ok { fs with filesD := insertF p content fs.filesD }

/-- The `for (relative_path, content) in &self.files` loop of
`Template::copy_to`: create the parent directories, then write the
file; any failure aborts the remaining writes, keeping the partially
populated state. -/
def copy_files : List (String × String) → DestFS → Except ProconError Unit × DestFS
  | [], fs => (Except.ok (), fs)
  | (relative_path, content) :: rest, fs =>
    let segs := splitPath relative_path
    match create_dir_all segs.dropLast fs with
    | Except.error e => (Except.error e, fs)
    | Except.ok fs1 =>
      match fs_write segs content fs1 with
      | Except.error e => (Except.error e, fs1)
      | Except.ok fs2 => copy_files rest fs2

/-- `Template::copy_to(dest_dir)`: ensure the destination directory
exists, then write every file. -/
def copy_to (t : Template) (fs : DestFS) : Except ProconError Unit × DestFS :=
  match create_dir_all [] fs with
  | Except.error e => (Except.error e, fs)
  | Except.ok fs1 => copy_files t fs1

/-! ## NewCommand::execute (src/commands/new.rs) -/

structure NewCommandArgs where
  name : String
  template : String

/-- `NewCommand::execute` observed through the destination subtree:
`world = none` means the project path does not exist, `world = some d`
means it exists with contents `d`.  The sequence mirrors the source:
load the config, check existence (before anything is loaded or
written), load the template, substitute, create the project directory,
copy. -/
def execute (args : NewCommandArgs) (env : Env) (world : Option DestFS) :
    Except ProconError Unit × Option DestFS :=
  let config := configOf env
  match world with
  | some d => (Except.error (ProconError.ProjectExists args.name), some d)
  | none =>
    match load_template env args.template config with
    | Except.error e => (Except.error e, none)
    | Except.ok t =>
      let processed := process_template_variables t args.name config
      let created : DestFS := { dirs := [[]], filesD := [] }
      match copy_to processed created with
      | (Except.ok _, d) => (Except.ok (), some d)
      | (Except.error e, d) => (Except.error e, some d)

/-! ## Concrete instances used by individual theorems -/

/-- A structurally invalid user template directory: `main.cpp` is
present but `CMakeLists.txt` is missing. -/
def brokenUserNode : FSNode := FSNode.dir [("main.cpp", FSNode.file (some "x"))]

/-- An environment whose user template directory shadows the built-in
name `default` with `brokenUserNode`, while a perfectly valid
`default` template is available from `$CARGO_MANIFEST_DIR`. -/
def envShadow : Env where
  config_dir := some [("default", brokenUserNode)]
  config_dir_path := some "/home/user/.config"
  manifest_dir := some [("default", FSNode.dir
    [("main.cpp", FSNode.file (some "m")), ("CMakeLists.txt", FSNode.file (some "c"))])]
  stored_config := none

/-- An environment with a valid user template named `default`. -/
def envValid : Env where
  config_dir := some [("default", FSNode.dir
    [("main.cpp", FSNode.file (some "x")), ("CMakeLists.txt", FSNode.file (some "y"))])]
  config_dir_path := none
  manifest_dir := none
  stored_config := none

/-- An environment with a user configuration directory that holds no
templates, no `$CARGO_MANIFEST_DIR`, and no stored configuration. -/
def envBare : Env where
  config_dir := some []
  config_dir_path := none
  manifest_dir := none
  stored_config := none

/-- A source directory missing both required files. -/
def dirMissingBoth : FSNode := FSNode.dir [("other.txt", FSNode.file (some "y"))]

/-- A source directory with a readable `main.cpp`, no
`CMakeLists.txt`, and a subdirectory that cannot even be traversed. -/
def dirNoCmake : FSNode :=
  FSNode.dir [("main.cpp", FSNode.file (some "x")), ("assets", FSNode.badDir)]

/-- The nested source directory of the claim: `main.cpp`,
`CMakeLists.txt` and `lib/utils.hpp`. -/
def dirNested : FSNode := FSNode.dir
  [("main.cpp", FSNode.file (some "A")),
   ("CMakeLists.txt", FSNode.file (some "B")),
   ("lib", FSNode.dir [("utils.hpp", FSNode.file (some "C"))])]

/-- A valid template whose `main.cpp` content is the project-name
placeholder wrapped in one extra brace pair on each side. -/
def tplWrapped : Template :=
  [("main.cpp", "\x7b\x7b" ++ projectNameToken ++ "\x7d\x7d"),
   ("CMakeLists.txt", "x")]

/-- A valid template whose `main.cpp` content is (escaped)
`{{{{PROJECT_NAME}}PROJECT_NAME}}`: deleting the placeholder glues the
surrounding text into a fresh placeholder occurrence. -/
def tplGlue : Template :=
  [("main.cpp", "\x7b\x7b" ++ projectNameToken ++ "PROJECT_NAME\x7d\x7d"),
   ("CMakeLists.txt", "x")]

/-- A template with a nested key, used to materialize. -/
def tplNested : Template := [("main.cpp", "A"), ("lib/utils.hpp", "B")]

/-- A template free of placeholder tokens. -/
def tplPlain : Template := [("main.cpp", "demo hello"), ("CMakeLists.txt", "x")]

def argsDemo : NewCommandArgs where
  name := "demo"
  template := "default"

/-- The destination subtree `execute argsDemo envValid none` produces. -/
def destDemo : DestFS where
  dirs := [[], [], [], []]
  filesD := [(splitPath "main.cpp", "x"), (splitPath "CMakeLists.txt", "y")]

/-! # Theorems

## Generic facts about `replaceGo`

Throughout, `S` is a set of characters (given as a list) separating
the pattern's material from the replacement's: every character of the
scrutinised word lies in `S` and no character of the replacement
does. -/

/-- An occurrence of a word whose characters all lie in `S` cannot
overlap a block whose characters all avoid `S`; it must lie in the
remainder. -/
theorem infix_skip {S t : List Char} (xs ys : List Char) (ht : t ≠ [])
    (htS : ∀ c ∈ t, c ∈ S) (hxs : ∀ c ∈ xs, c ∉ S) (h : t <:+: xs ++ ys) :
    t <:+: ys := by
  induction xs with
  | nil => simpa using h
  | cons x xs ih =>
    rw [List.cons_append] at h
    rcases List.infix_cons_iff.mp h with hpre | hin
    · cases t with
      | nil => exact absurd rfl ht
      | cons a t' =>
        obtain ⟨hax, -⟩ := List.cons_prefix_cons.mp hpre
        exact absurd (hax ▸ htS a (List.mem_cons_self a t'))
          (hxs x (List.mem_cons_self x xs))
    · exact ih (fun c hc => hxs c (List.mem_cons_of_mem x hc)) hin

theorem replaceF_nil (p : Char) (ps rep : List Char) (fuel : Nat) :
    replaceF p ps rep fuel [] = [] := by cases fuel <;> rfl

theorem replaceF_succ (p : Char) (ps rep : List Char) (fuel : Nat) (c : Char)
    (rest : List Char) :
    replaceF p ps rep (fuel + 1) (c :: rest) =
      if (p :: ps).isPrefixOf (c :: rest) then
        rep ++ replaceF p ps rep fuel (rest.drop ps.length)
      else
        c :: replaceF p ps rep fuel rest := rfl

/-- A word whose characters all lie in `S`, appearing as a prefix of
the output of the scan, is already a prefix of the input (the output
can only start with replacement material — whose characters avoid
`S` — or with characters kept verbatim from the input). -/
theorem prefix_pull {S : List Char} {p : Char} {ps rep : List Char}
    (hrep : ∀ c ∈ rep, c ∉ S) (hrepne : rep ≠ []) :
    ∀ fuel s q, s.length ≤ fuel → q ≠ [] → (∀ c ∈ q, c ∈ S) →
      q <+: replaceF p ps rep fuel s → q <+: s := by
  intro fuel
  induction fuel with
  | zero =>
    intro s q _ _ _ hpre
    cases s with
    | nil => exact hpre
    | cons c rest => exact hpre
  | succ f ih =>
    intro s q hle hq hqS hpre
    cases s with
    | nil =>
      rw [replaceF_nil] at hpre
      exact absurd (List.prefix_nil.mp hpre) hq
    | cons c rest =>
      rw [replaceF_succ] at hpre
      by_cases hm : (p :: ps).isPrefixOf (c :: rest)
      · rw [if_pos hm] at hpre
        cases q with
        | nil => exact absurd rfl hq
        | cons a q' =>
          cases rep with
          | nil => exact absurd rfl hrepne
          | cons r rep' =>
            obtain ⟨har, -⟩ := List.cons_prefix_cons.mp hpre
            exact absurd (har ▸ hqS a (List.mem_cons_self a q'))
              (hrep r (List.mem_cons_self r rep'))
      · rw [if_neg hm] at hpre
        cases q with
        | nil => exact absurd rfl hq
        | cons a q' =>
          obtain ⟨hac, hq'⟩ := List.cons_prefix_cons.mp hpre
          cases q' with
          | nil => exact List.cons_prefix_cons.mpr ⟨hac, List.nil_prefix⟩
          | cons b q'' =>
            have hsub : ∀ x ∈ b :: q'', x ∈ S :=
              fun x hx => hqS x (List.mem_cons_of_mem a hx)
            have hrest : rest.length ≤ f := by
              simpa using hle
            exact List.cons_prefix_cons.mpr
              ⟨hac, ih rest (b :: q'') hrest (by simp) hsub hq'⟩

/-- After replacing the pattern by a non-empty replacement sharing no
character with it, no occurrence of the pattern remains. -/
theorem replaceF_no_left {p : Char} {ps rep : List Char}
    (hrep : ∀ c ∈ rep, c ∉ p :: ps) (hrepne : rep ≠ []) :
    ∀ fuel s, s.length ≤ fuel → ¬ (p :: ps) <:+: replaceF p ps rep fuel s := by
  intro fuel
  induction fuel with
  | zero =>
    intro s hle
    have hnil : s = [] := List.eq_nil_of_length_eq_zero (Nat.le_zero.mp hle)
    subst hnil
    rw [replaceF_nil]
    simp
  | succ f ih =>
    intro s hle
    cases s with
    | nil =>
      rw [replaceF_nil]
      simp
    | cons c rest =>
      have hrest : rest.length ≤ f := by simpa using hle
      rw [replaceF_succ]
      by_cases hm : (p :: ps).isPrefixOf (c :: rest)
      · rw [if_pos hm]
        intro h
        have hdrop : (rest.drop ps.length).length ≤ f := by
          simp only [List.length_drop]
          omega
        exact ih (rest.drop ps.length) hdrop
          (infix_skip rep _ (by simp) (fun x hx => hx) hrep h)
      · rw [if_neg hm]
        intro h
        rcases List.infix_cons_iff.mp h with hpre | hin
        · have hpre' : (p :: ps) <+: replaceF p ps rep (f + 1) (c :: rest) := by
            rw [replaceF_succ, if_neg hm]
            exact hpre
          exact hm (List.isPrefixOf_iff_prefix.mpr
            (prefix_pull hrep hrepne (f + 1) (c :: rest) (p :: ps) hle (by simp)
              (fun x hx => hx) hpre'))
        · exact ih rest hrest hin

/-- The scan cannot create an occurrence of a word `t` whose
characters all lie in `S` when the replacement is non-empty and its
characters avoid `S`: if `t` did not occur in the input it does not
occur in the output. -/
theorem replaceF_keeps_absent {S t : List Char} {p : Char} {ps rep : List Char}
    (ht : t ≠ []) (htS : ∀ c ∈ t, c ∈ S) (hrep : ∀ c ∈ rep, c ∉ S)
    (hrepne : rep ≠ []) :
    ∀ fuel s, s.length ≤ fuel → ¬ t <:+: s → ¬ t <:+: replaceF p ps rep fuel s := by
  intro fuel
  induction fuel with
  | zero =>
    intro s _ hs
    cases s with
    | nil => exact hs
    | cons c rest => exact hs
  | succ f ih =>
    intro s hle hs
    cases s with
    | nil =>
      rw [replaceF_nil]
      exact hs
    | cons c rest =>
      have hrest : rest.length ≤ f := by simpa using hle
      rw [replaceF_succ]
      by_cases hm : (p :: ps).isPrefixOf (c :: rest)
      · rw [if_pos hm]
        intro h
        have hdrop : (rest.drop ps.length).length ≤ f := by
          simp only [List.length_drop]
          omega
        refine ih (rest.drop ps.length) hdrop (fun hin => hs ?_)
          (infix_skip rep _ ht htS hrep h)
        exact (hin.trans (List.drop_suffix ps.length rest).isInfix).trans
          (List.suffix_cons c rest).isInfix
      · rw [if_neg hm]
        intro h
        rcases List.infix_cons_iff.mp h with hpre | hin
        · have hpre' : t <+: replaceF p ps rep (f + 1) (c :: rest) := by
            rw [replaceF_succ, if_neg hm]
            exact hpre
          exact hs (prefix_pull hrep hrepne (f + 1) (c :: rest) t hle ht htS
            hpre').isInfix
        · exact ih rest hrest
            (fun hr => hs (hr.trans (List.suffix_cons c rest).isInfix)) hin

/-- If the pattern does not occur in the input, the scan is the
identity. -/
theorem replaceF_id_of_absent {p : Char} {ps rep : List Char} :
    ∀ fuel s, ¬ (p :: ps) <:+: s → replaceF p ps rep fuel s = s := by
  intro fuel
  induction fuel with
  | zero =>
    intro s _
    cases s <;> rfl
  | succ f ih =>
    intro s hs
    cases s with
    | nil => rfl
    | cons c rest =>
      rw [replaceF_succ]
      by_cases hm : (p :: ps).isPrefixOf (c :: rest)
      · exact absurd (List.isPrefixOf_iff_prefix.mp hm).isInfix hs
      · rw [if_neg hm,
          ih rest (fun hr => hs (hr.trans (List.suffix_cons c rest).isInfix))]

/-! ## The same facts for `listReplace` (non-empty patterns) -/

theorem listReplace_no_left {pat rep : List Char} (hpat : pat ≠ [])
    (hrep : ∀ c ∈ rep, c ∉ pat) (hrepne : rep ≠ []) (s : List Char) :
    ¬ pat <:+: listReplace s pat rep := by
  cases pat with
  | nil => exact absurd rfl hpat
  | cons p ps => exact replaceF_no_left hrep hrepne s.length s (Nat.le_refl _)

theorem listReplace_keeps_absent {S t pat rep : List Char} (hpat : pat ≠ [])
    (ht : t ≠ []) (htS : ∀ c ∈ t, c ∈ S) (hrep : ∀ c ∈ rep, c ∉ S)
    (hrepne : rep ≠ []) (s : List Char) (hs : ¬ t <:+: s) :
    ¬ t <:+: listReplace s pat rep := by
  cases pat with
  | nil => exact absurd rfl hpat
  | cons p ps => exact replaceF_keeps_absent ht htS hrep hrepne s.length s (Nat.le_refl _) hs

theorem listReplace_id_of_absent {pat rep : List Char} (hpat : pat ≠ [])
    (s : List Char) (hs : ¬ pat <:+: s) : listReplace s pat rep = s := by
  cases pat with
  | nil => exact absurd rfl hpat
  | cons p ps => exact replaceF_id_of_absent s.length s hs

/-- Rebuilding a string from its own character list is the identity. -/
theorem string_mk_data (s : String) : String.mk s.data = s := rfl

/-- Chained substitution of the three placeholders leaves no
occurrence of any of them, provided every replacement value is
non-empty and shares no character with any token. -/
theorem subst_chain_no_tokens (s n cm cp : String)
    (h1 : n.data ≠ []) (h2 : cm.data ≠ []) (h3 : cp.data ≠ [])
    (d1 : ∀ c ∈ n.data, c ∉ projectNameToken.data ∧
      c ∉ cmakeVersionToken.data ∧ c ∉ cppStandardToken.data)
    (d2 : ∀ c ∈ cm.data, c ∉ projectNameToken.data ∧
      c ∉ cmakeVersionToken.data ∧ c ∉ cppStandardToken.data)
    (d3 : ∀ c ∈ cp.data, c ∉ projectNameToken.data ∧
      c ∉ cmakeVersionToken.data ∧ c ∉ cppStandardToken.data) :
    ¬ projectNameToken.data <:+:
      (rustReplace (rustReplace (rustReplace s projectNameToken n)
        cmakeVersionToken cm) cppStandardToken cp).data ∧
    ¬ cmakeVersionToken.data <:+:
      (rustReplace (rustReplace (rustReplace s projectNameToken n)
        cmakeVersionToken cm) cppStandardToken cp).data ∧
    ¬ cppStandardToken.data <:+:
      (rustReplace (rustReplace (rustReplace s projectNameToken n)
        cmakeVersionToken cm) cppStandardToken cp).data := by
  have t1ne : projectNameToken.data ≠ [] := by decide
  have t2ne : cmakeVersionToken.data ≠ [] := by decide
  have t3ne : cppStandardToken.data ≠ [] := by decide
  have e1 : ¬ projectNameToken.data <:+:
      listReplace s.data projectNameToken.data n.data :=
    listReplace_no_left t1ne (fun c hc => (d1 c hc).1) h1 _
  have e2 : ¬ projectNameToken.data <:+:
      listReplace (listReplace s.data projectNameToken.data n.data)
        cmakeVersionToken.data cm.data :=
    listReplace_keeps_absent t2ne t1ne (fun x hx => hx)
      (fun c hc => (d2 c hc).1) h2 _ e1
  have e3 : ¬ projectNameToken.data <:+:
      listReplace (listReplace (listReplace s.data projectNameToken.data n.data)
        cmakeVersionToken.data cm.data) cppStandardToken.data cp.data :=
    listReplace_keeps_absent t3ne t1ne (fun x hx => hx)
      (fun c hc => (d3 c hc).1) h3 _ e2
  have f2 : ¬ cmakeVersionToken.data <:+:
      listReplace (listReplace s.data projectNameToken.data n.data)
        cmakeVersionToken.data cm.data :=
    listReplace_no_left t2ne (fun c hc => (d2 c hc).2.1) h2 _
  have f3 : ¬ cmakeVersionToken.data <:+:
      listReplace (listReplace (listReplace s.data projectNameToken.data n.data)
        cmakeVersionToken.data cm.data) cppStandardToken.data cp.data :=
    listReplace_keeps_absent t3ne t2ne (fun x hx => hx)
      (fun c hc => (d3 c hc).2.1) h3 _ f2
  have g3 : ¬ cppStandardToken.data <:+:
      listReplace (listReplace (listReplace s.data projectNameToken.data n.data)
        cmakeVersionToken.data cm.data) cppStandardToken.data cp.data :=
    listReplace_no_left t3ne (fun c hc => (d3 c hc).2.2) h3 _
  exact ⟨e3, f3, g3⟩

/-! ## Claim theorems -/

/-- Claim C1: whenever the user template directory resolves a name
(`find_template` succeeds), `load_template` is exactly
`load_from_path` on the resolved path — so a later loading failure
(e.g. a structurally invalid directory) fails the whole operation, and
no embedded built-in of the same name is consulted. -/
theorem c1_user_template_no_fallback (env : Env) (name : String) (node : FSNode)
    (config : Config) (h : find_template env name = Except.ok node) :
    load_template env name config = load_from_path node ∧
    (∀ e, load_from_path node = Except.error e →
      load_template env name config = Except.error e) := by
  refine ⟨?_, fun e he => ?_⟩
  · simp [load_template, h]
  · simp [load_template, h, he]

/-- Witness for C1: the user directory `default` shadows the built-in
`default`; it is structurally invalid (no `CMakeLists.txt`), and the
whole resolution fails with that error even though a valid `default`
template would be available elsewhere. -/
theorem c1_user_template_no_fallback_witness :
    find_template envShadow "default" = Except.ok brokenUserNode ∧
    load_template envShadow "default" (Config.defaultFor none) =
      Except.error (ProconError.TemplateNotFound "CMakeLists.txt not found in template") := by
  have h : find_template envShadow "default" = Except.ok brokenUserNode := rfl
  exact ⟨h, (c1_user_template_no_fallback envShadow "default" brokenUserNode
    (Config.defaultFor none) h).2
    (ProconError.TemplateNotFound "CMakeLists.txt not found in template") rfl⟩

/-- Claim C3 (amended): loading a directory missing `main.cpp` fails
with a `TemplateNotFound` error naming `main.cpp` (this file is
checked first); loading a directory that contains a readable
`main.cpp` but no `CMakeLists.txt` fails with a `TemplateNotFound`
error naming `CMakeLists.txt`.  Both statements hold for arbitrary
remaining directory contents — even ones whose traversal would fail —
because the required-file validation precedes the recursive walk. -/
theorem c3_required_file_validation (entries : List (String × FSNode)) :
    (lookupEntry "main.cpp" entries = none →
      load_from_path (FSNode.dir entries) =
        Except.error (ProconError.TemplateNotFound "main.cpp not found in template")) ∧
    (∀ m, lookupEntry "main.cpp" entries = some (FSNode.file (some m)) →
      lookupEntry "CMakeLists.txt" entries = none →
      load_from_path (FSNode.dir entries) =
        Except.error (ProconError.TemplateNotFound "CMakeLists.txt not found in template")) := by
  constructor
  · intro h
    simp [load_from_path, read_required, childOf, h]
  · intro m hm hc
    simp [load_from_path, read_required, childOf, hm, hc]

/-- Counterexample for C3 as stated: a source directory missing
*both* required files is in particular a directory missing
`CMakeLists.txt`, yet the error message names `main.cpp` and does not
mention `CMakeLists.txt` at all. -/
theorem c3_counterexample :
    load_from_path dirMissingBoth =
      Except.error (ProconError.TemplateNotFound "main.cpp not found in template") ∧
    ¬ ("CMakeLists.txt" : String).data <:+:
      ("main.cpp not found in template" : String).data := by
  exact ⟨rfl, by decide⟩

/-- Witness for C3: a directory with a readable `main.cpp`, no
`CMakeLists.txt`, and a subdirectory whose traversal would fail with
an I/O error; the result is still the `TemplateNotFound` error naming
`CMakeLists.txt`, showing the walk never ran. -/
theorem c3_required_file_validation_witness :
    load_from_path dirNoCmake =
      Except.error (ProconError.TemplateNotFound "CMakeLists.txt not found in template") :=
  (c3_required_file_validation
    [("main.cpp", FSNode.file (some "x")), ("assets", FSNode.badDir)]).2 "x" rfl rfl

/-- Claim C6: loading a source directory containing exactly
`main.cpp`, `CMakeLists.txt` and `lib/utils.hpp` produces a template
whose keys are exactly those three names: the walk joined the prefix
`lib` and the entry name `utils.hpp` with `/`, descended into `lib`,
and skipped the two root-level required files already loaded. -/
theorem c6_nested_walk_keys :
    load_from_path dirNested =
      Except.ok [("main.cpp", "A"), ("CMakeLists.txt", "B"), ("lib/utils.hpp", "C")] ∧
    (∀ k, k ∈ keysOf [("main.cpp", "A"), ("CMakeLists.txt", "B"), ("lib/utils.hpp", "C")] ↔
      (k = "main.cpp" ∨ k = "CMakeLists.txt" ∨ k = "lib/utils.hpp")) := by
  constructor
  · simp [dirNested, load_from_path, read_required, childOf, lookupEntry, insertA,
      load_directory_recursively, walk_entries]
  · intro k
    simp [keysOf]

/-- Claim C7 (code evaluated at the failing input): with no user
template directory for it and no `$CARGO_MANIFEST_DIR`, resolving
`advanced` — a name with no embedded built-in — produces
`TemplateNotFoundWithHint "advanced"` (a variant `error.rs` does not
declare) rather than `TemplateNotFound "advanced"`; names outside the
hard-coded builtin list do produce `TemplateNotFound`. -/
theorem c7_advanced_resolution_divergence :
    load_template envBare "advanced" (Config.defaultFor none) =
      Except.error (ProconError.TemplateNotFoundWithHint "advanced") ∧
    load_template envBare "nonexistent" (Config.defaultFor none) =
      Except.error (ProconError.TemplateNotFound "nonexistent") ∧
    from_builtin "dm" "dc" "advanced" =
      Except.error (ProconError.TemplateNotFound "advanced") := by
  exact ⟨rfl, rfl, rfl⟩

/-- Claim C9: both substitution functions return a template with
exactly the key list of the input; only contents change. -/
theorem c9_substitution_keeps_keys (t : Template) (project_name : String)
    (config : Config) :
    keysOf (apply_variables t project_name) = keysOf t ∧
    keysOf (process_template_variables t project_name config) = keysOf t := by
  constructor <;> simp [keysOf, apply_variables, process_template_variables]

/-- Claim C10: `Config::load` always succeeds with the built-in
default configuration (`cpp_standard = "17"`,
`cmake_minimum_version = "3.16"`, `template.default = "default"`),
ignoring any stored configuration, and `execute` therefore
substitutes with these defaults regardless of the stored
configuration. -/
theorem c10_config_load_defaults (env : Env) :
    Config.load env.stored_config env.config_dir_path =
      Except.ok (Config.defaultFor env.config_dir_path) ∧
    (Config.defaultFor env.config_dir_path).project.cpp_standard = "17" ∧
    (Config.defaultFor env.config_dir_path).project.cmake_minimum_version = "3.16" ∧
    (Config.defaultFor env.config_dir_path).template.default = "default" ∧
    configOf env = Config.defaultFor env.config_dir_path ∧
    (∀ s args world,
      execute args { env with stored_config := s } world = execute args env world) := by
  refine ⟨rfl, rfl, rfl, rfl, rfl, fun s args world => ?_⟩
  simp [execute, configOf, Config.load, load_template, find_template]

/-- Claim C2: when the destination exists at call time, `execute`
fails with `ProjectExists` and leaves the filesystem untouched — the
check precedes template loading, directory creation and every write;
consequently, after a successful run, calling `execute` again with
the same name and destination fails with `ProjectExists` and leaves
the materialized destination unchanged. -/
theorem c2_project_exists_check (args : NewCommandArgs) (env : Env) :
    (∀ d, execute args env (some d) =
      (Except.error (ProconError.ProjectExists args.name), some d)) ∧
    (∀ w, execute args env none = (Except.ok (), w) →
      ∃ d, w = some d ∧
        execute args env w = (Except.error (ProconError.ProjectExists args.name), w)) := by
  have h1 : ∀ d, execute args env (some d) =
      (Except.error (ProconError.ProjectExists args.name), some d) := fun d => rfl
  refine ⟨h1, fun w hw => ?_⟩
  simp only [execute] at hw
  cases hload : load_template env args.template (configOf env) with
  | error e =>
    rw [hload] at hw
    simp at hw
  | ok t =>
    simp only [hload] at hw
    cases hcopy : copy_to (process_template_variables t args.name (configOf env))
        { dirs := [[]], filesD := [] } with
    | mk r d =>
      rw [hcopy] at hw
      cases r with
      | ok u =>
        simp at hw
        exact ⟨d, hw.symm, hw ▸ h1 d⟩
      | error e =>
        simp at hw

/-- Unfolding of `execute` on an absent destination, stated with the
template-loading step left symbolic. -/
theorem execute_none (args : NewCommandArgs) (env : Env) :
    execute args env none =
      (match load_template env args.template (configOf env) with
      | Except.error e => (Except.error e, none)
      | Except.ok t =>
        match copy_to (process_template_variables t args.name (configOf env))
            { dirs := [[]], filesD := [] } with
        | (Except.ok _, d) => (Except.ok (), some d)
        | (Except.error e, d) => (Except.error e, some d)) := rfl

/-- Witness for C2: a full successful first run of `execute` from an
absent destination, after which the rerun fails with `ProjectExists`
and changes nothing. -/
theorem c2_project_exists_check_witness :
    execute argsDemo envValid none = (Except.ok (), some destDemo) ∧
    (∃ d, (some destDemo : Option DestFS) = some d ∧
      execute argsDemo envValid (some destDemo) =
        (Except.error (ProconError.ProjectExists argsDemo.name), some destDemo)) := by
  have hload : load_template envValid "default" (configOf envValid) =
      Except.ok [("main.cpp", "x"), ("CMakeLists.txt", "y")] := by
    simp [load_template, find_template, envValid, lookupEntry, load_from_path,
      read_required, childOf, load_directory_recursively, walk_entries, insertA]
  have hrun : execute argsDemo envValid none = (Except.ok (), some destDemo) := by
    rw [← show argsDemo.template = "default" from rfl] at hload
    rw [execute_none, hload]
    rfl
  exact ⟨hrun, (c2_project_exists_check argsDemo envValid).2 (some destDemo) hrun⟩

/-- Claim C4 (amended): `process_template_variables` rewrites every
file's content by the three chained literal replacements of
`{{PROJECT_NAME}}`, `{{CMAKE_VERSION}}` and `{{CPP_STANDARD}}` by the
project name and the configuration's two values respectively;
provided every replacement value is non-empty and shares no character
with any of the three tokens, no occurrence of any token remains in
any output content. -/
theorem c4_no_tokens_remain (t : Template) (project_name : String) (config : Config)
    (h1 : project_name.data ≠ [])
    (h2 : config.project.cmake_minimum_version.data ≠ [])
    (h3 : config.project.cpp_standard.data ≠ [])
    (d1 : ∀ c ∈ project_name.data, c ∉ projectNameToken.data ∧
      c ∉ cmakeVersionToken.data ∧ c ∉ cppStandardToken.data)
    (d2 : ∀ c ∈ config.project.cmake_minimum_version.data, c ∉ projectNameToken.data ∧
      c ∉ cmakeVersionToken.data ∧ c ∉ cppStandardToken.data)
    (d3 : ∀ c ∈ config.project.cpp_standard.data, c ∉ projectNameToken.data ∧
      c ∉ cmakeVersionToken.data ∧ c ∉ cppStandardToken.data) :
    ∀ k c, (k, c) ∈ process_template_variables t project_name config →
      ¬ projectNameToken.data <:+: c.data ∧
      ¬ cmakeVersionToken.data <:+: c.data ∧
      ¬ cppStandardToken.data <:+: c.data := by
  intro k c hmem
  rw [process_template_variables] at hmem
  obtain ⟨kv, hkv, heq⟩ := List.mem_map.mp hmem
  injection heq with hk hc
  subst hc
  exact subst_chain_no_tokens kv.2 project_name
    config.project.cmake_minimum_version config.project.cpp_standard
    h1 h2 h3 d1 d2 d3

/-- Witness for C4: project name `demo` against the default
configuration; the hypotheses hold and no token survives in the
output of a template that mentions none. -/
theorem c4_no_tokens_remain_witness :
    (∀ c ∈ ("demo" : String).data, c ∉ projectNameToken.data ∧
      c ∉ cmakeVersionToken.data ∧ c ∉ cppStandardToken.data) ∧
    (∀ k c, (k, c) ∈ process_template_variables tplPlain "demo" (Config.defaultFor none) →
      ¬ projectNameToken.data <:+: c.data ∧
      ¬ cmakeVersionToken.data <:+: c.data ∧
      ¬ cppStandardToken.data <:+: c.data) :=
  ⟨by decide, c4_no_tokens_remain tplPlain "demo" (Config.defaultFor none)
    (by decide) (by decide) (by decide) (by decide) (by decide) (by decide)⟩

/-- Counterexample for C4 as stated: with the empty project name (and
the default configuration values `3.16` / `17`), the content
(escaped) `{{{{PROJECT_NAME}}PROJECT_NAME}}` rewrites to exactly
`{{PROJECT_NAME}}` — an occurrence of the token remains even though no
replacement value contains (or, being empty, could introduce) any
token. -/
theorem c4_counterexample :
    process_template_variables tplGlue "" (Config.defaultFor none) =
      [("main.cpp", projectNameToken), ("CMakeLists.txt", "x")] ∧
    (∀ v ∈ [("" : String), "3.16", "17"],
      ¬ projectNameToken.data <:+: v.data ∧
      ¬ cmakeVersionToken.data <:+: v.data ∧
      ¬ cppStandardToken.data <:+: v.data) := by
  decide

/-- Claim C5 (amended): substitution is idempotent whenever every
replacement value is non-empty and shares no character with any
placeholder token (so that no token occurrence — original or
re-formed — survives the first application). -/
theorem c5_subst_idempotent (t : Template) (project_name : String) (config : Config)
    (h1 : project_name.data ≠ [])
    (h2 : config.project.cmake_minimum_version.data ≠ [])
    (h3 : config.project.cpp_standard.data ≠ [])
    (d1 : ∀ c ∈ project_name.data, c ∉ projectNameToken.data ∧
      c ∉ cmakeVersionToken.data ∧ c ∉ cppStandardToken.data)
    (d2 : ∀ c ∈ config.project.cmake_minimum_version.data, c ∉ projectNameToken.data ∧
      c ∉ cmakeVersionToken.data ∧ c ∉ cppStandardToken.data)
    (d3 : ∀ c ∈ config.project.cpp_standard.data, c ∉ projectNameToken.data ∧
      c ∉ cmakeVersionToken.data ∧ c ∉ cppStandardToken.data) :
    process_template_variables (process_template_variables t project_name config)
      project_name config = process_template_variables t project_name config := by
  have t1ne : projectNameToken.data ≠ [] := by decide
  have t2ne : cmakeVersionToken.data ≠ [] := by decide
  have t3ne : cppStandardToken.data ≠ [] := by decide
  have hmain : ∀ x : String,
      ¬ projectNameToken.data <:+: x.data →
      ¬ cmakeVersionToken.data <:+: x.data →
      ¬ cppStandardToken.data <:+: x.data →
      rustReplace (rustReplace (rustReplace x projectNameToken project_name)
        cmakeVersionToken config.project.cmake_minimum_version)
        cppStandardToken config.project.cpp_standard = x := by
    intro x hA hB hC
    have r1 : rustReplace x projectNameToken project_name = x := by
      show String.mk (listReplace x.data projectNameToken.data project_name.data) = x
      rw [listReplace_id_of_absent t1ne x.data hA, string_mk_data]
    rw [r1]
    have r2 : rustReplace x cmakeVersionToken config.project.cmake_minimum_version = x := by
      show String.mk (listReplace x.data cmakeVersionToken.data
        config.project.cmake_minimum_version.data) = x
      rw [listReplace_id_of_absent t2ne x.data hB, string_mk_data]
    rw [r2]
    show String.mk (listReplace x.data cppStandardToken.data
      config.project.cpp_standard.data) = x
    rw [listReplace_id_of_absent t3ne x.data hC, string_mk_data]
  rw [process_template_variables, process_template_variables, List.map_map]
  refine List.map_congr_left (fun kv hkv => ?_)
  obtain ⟨hA, hB, hC⟩ := subst_chain_no_tokens kv.2 project_name
    config.project.cmake_minimum_version config.project.cpp_standard
    h1 h2 h3 d1 d2 d3
  show (kv.1, rustReplace (rustReplace (rustReplace
      (rustReplace (rustReplace (rustReplace kv.2 projectNameToken project_name)
        cmakeVersionToken config.project.cmake_minimum_version)
        cppStandardToken config.project.cpp_standard)
      projectNameToken project_name)
      cmakeVersionToken config.project.cmake_minimum_version)
      cppStandardToken config.project.cpp_standard) = _
  rw [hmain _ hA hB hC]

/-- Witness for C5: project name `demo` against the default
configuration is idempotent. -/
theorem c5_subst_idempotent_witness :
    (∀ c ∈ ("demo" : String).data, c ∉ projectNameToken.data ∧
      c ∉ cmakeVersionToken.data ∧ c ∉ cppStandardToken.data) ∧
    process_template_variables
      (process_template_variables tplPlain "demo" (Config.defaultFor none))
      "demo" (Config.defaultFor none) =
      process_template_variables tplPlain "demo" (Config.defaultFor none) :=
  ⟨by decide, c5_subst_idempotent tplPlain "demo" (Config.defaultFor none)
    (by decide) (by decide) (by decide) (by decide) (by decide) (by decide)⟩

/-- Counterexample for C5 as stated: with project name `PROJECT_NAME`
(and default configuration values), none of the replacement values
contains any placeholder token, yet substitution is not idempotent on
the valid template `tplWrapped`: the first application turns
(escaped) `{{{{PROJECT_NAME}}}}` into `{{PROJECT_NAME}}`, and the
second application rewrites that again. -/
theorem c5_counterexample :
    process_template_variables
      (process_template_variables tplWrapped "PROJECT_NAME" (Config.defaultFor none))
      "PROJECT_NAME" (Config.defaultFor none) ≠
      process_template_variables tplWrapped "PROJECT_NAME" (Config.defaultFor none) ∧
    (∀ v ∈ [("PROJECT_NAME" : String), "3.16", "17"],
      ¬ projectNameToken.data <:+: v.data ∧
      ¬ cmakeVersionToken.data <:+: v.data ∧
      ¬ cppStandardToken.data <:+: v.data) ∧
    keysOf tplWrapped = ["main.cpp", "CMakeLists.txt"] := by
  decide

/-! ## Materializer lemmas -/

theorem keysOf_cons (k v : String) (l : Template) :
    keysOf ((k, v) :: l) = k :: keysOf l := rfl

theorem splitRel_cons (c : Char) (rest : List Char) :
    splitRel (c :: rest) = match splitRel rest with
      | [] => [[]]
      | seg :: segs => if c = '/' then [] :: seg :: segs else (c :: seg) :: segs := rfl

theorem splitRel_ne_nil (s : List Char) : splitRel s ≠ [] := by
  cases s with
  | nil => simp [splitRel]
  | cons c rest =>
    rw [splitRel_cons]
    cases h : splitRel rest with
    | nil => simp
    | cons seg segs => by_cases hc : c = '/' <;> simp [hc]

/-- Being a prefix of `dropLast` is being a proper prefix. -/
theorem prefix_dropLast {α : Type _} {l q : List α} (hl : l ≠ []) :
    q <+: l.dropLast ↔ (q <+: l ∧ q ≠ l) := by
  rw [List.dropLast_eq_take, List.prefix_take_iff]
  have hpos : 0 < l.length := List.length_pos.mpr hl
  constructor
  · rintro ⟨hp, hlen⟩
    refine ⟨hp, fun heq => ?_⟩
    subst heq
    omega
  · rintro ⟨hp, hne⟩
    refine ⟨hp, ?_⟩
    have hle := hp.length_le
    have hlen : q.length ≠ l.length := fun h => hne (hp.eq_of_length h)
    omega

/-- `insertF` on a table that does not contain the key appends. -/
theorem insertF_append {p : FPath} {v : String} :
    ∀ l : List (FPath × String), (∀ kv ∈ l, kv.1 ≠ p) → insertF p v l = l ++ [(p, v)] := by
  intro l
  induction l with
  | nil => intro _; rfl
  | cons kv rest ih =>
    intro h
    obtain ⟨q, w⟩ := kv
    rw [insertF, if_neg (h (q, w) (List.mem_cons_self _ _)),
      ih (fun kv hkv => h kv (List.mem_cons_of_mem _ hkv)), List.cons_append]

/-- Fold invariant of `copy_files`: with pairwise non-prefix keys and
a state whose files and directories do not collide with the keys
still to be written, every step succeeds, the file table is extended
exactly by the written files, and the directories grow by exactly the
proper prefixes of the written keys' paths. -/
theorem copy_files_spec :
    ∀ (todo : List (String × String)) (fs : DestFS),
      (keysOf todo).Nodup →
      (∀ k1 ∈ keysOf todo, ∀ k2 ∈ keysOf todo, k1 ≠ k2 →
        ¬ splitPath k1 <+: splitPath k2) →
      (∀ kv ∈ fs.filesD, ∀ k ∈ keysOf todo, ¬ kv.1 <+: splitPath k) →
      (∀ q ∈ fs.dirs, ∀ k ∈ keysOf todo, q ≠ splitPath k) →
      (copy_files todo fs).1 = Except.ok () ∧
      (copy_files todo fs).2.filesD =
        fs.filesD ++ todo.map (fun kv => (splitPath kv.1, kv.2)) ∧
      (∀ q, q ∈ (copy_files todo fs).2.dirs ↔
        (q ∈ fs.dirs ∨ ∃ k ∈ keysOf todo, q <+: splitPath k ∧ q ≠ splitPath k)) := by
  intro todo
  induction todo with
  | nil =>
    intro fs _ _ _ _
    refine ⟨rfl, by simp [copy_files], fun q => ?_⟩
    simp [copy_files, keysOf]
  | cons hd rest ih =>
    obtain ⟨key, content⟩ := hd
    intro fs hnd hanti hfiles hdirs
    rw [keysOf_cons] at hnd
    have hkeymem : key ∈ keysOf ((key, content) :: rest) := by
      rw [keysOf_cons]
      exact List.mem_cons_self _ _
    have hkeynotin : key ∉ keysOf rest := (List.nodup_cons.mp hnd).1
    have hsegne : splitPath key ≠ [] := splitRel_ne_nil _
    -- the create_dir_all step succeeds
    have hcond : ¬ ∃ q ∈ (splitPath key).dropLast.inits,
        ∃ kv ∈ fs.filesD, kv.1 = q := by
      rintro ⟨q, hq, kv, hkv, hkvq⟩
      have hq' : q <+: (splitPath key).dropLast := (List.mem_inits _ _).mp hq
      have hqk : q <+: splitPath key := ((prefix_dropLast hsegne).mp hq').1
      exact hfiles kv hkv key hkeymem (hkvq ▸ hqk)
    have hmk : create_dir_all (splitPath key).dropLast fs = Except.ok
        { dirs := fs.dirs ++ (splitPath key).dropLast.inits, filesD := fs.filesD } := by
      rw [create_dir_all, if_neg hcond]
    -- the fs_write step succeeds
    have hwcond : splitPath key ∉
        ({ dirs := fs.dirs ++ (splitPath key).dropLast.inits,
           filesD := fs.filesD } : DestFS).dirs := by
      intro hmem
      rcases List.mem_append.mp hmem with h | h
      · exact hdirs _ h key hkeymem rfl
      · exact ((prefix_dropLast hsegne).mp ((List.mem_inits _ _).mp h)).2 rfl
    have hins : insertF (splitPath key) content fs.filesD =
        fs.filesD ++ [(splitPath key, content)] :=
      insertF_append _ (fun kv hkv heq =>
        hfiles kv hkv key hkeymem (heq ▸ List.prefix_rfl))
    have hwr : fs_write (splitPath key) content
        { dirs := fs.dirs ++ (splitPath key).dropLast.inits, filesD := fs.filesD } =
        Except.ok (DestFS.mk (fs.dirs ++ (splitPath key).dropLast.inits)
          (fs.filesD ++ [(splitPath key, content)])) := by
      rw [fs_write, if_neg hwcond, hins]
    have hstep : copy_files ((key, content) :: rest) fs = copy_files rest
        (DestFS.mk (fs.dirs ++ (splitPath key).dropLast.inits)
          (fs.filesD ++ [(splitPath key, content)])) := by
      simp only [copy_files, hmk, hwr]
    -- hypotheses for the remaining files
    have hnd' : (keysOf rest).Nodup := (List.nodup_cons.mp hnd).2
    have hanti' : ∀ k1 ∈ keysOf rest, ∀ k2 ∈ keysOf rest, k1 ≠ k2 →
        ¬ splitPath k1 <+: splitPath k2 := by
      intro k1 h1 k2 h2 hne
      exact hanti k1 (keysOf_cons _ _ _ ▸ List.mem_cons_of_mem _ h1)
        k2 (keysOf_cons _ _ _ ▸ List.mem_cons_of_mem _ h2) hne
    have hfiles' : ∀ kv ∈ (fs.filesD ++ [(splitPath key, content)]),
        ∀ k ∈ keysOf rest, ¬ kv.1 <+: splitPath k := by
      intro kv hkv k hk
      have hkc : k ∈ keysOf ((key, content) :: rest) :=
        keysOf_cons _ _ _ ▸ List.mem_cons_of_mem _ hk
      rcases List.mem_append.mp hkv with h | h
      · exact hfiles kv h k hkc
      · have hkvk : kv = (splitPath key, content) := by simpa using h
        subst hkvk
        have hne : key ≠ k := fun h => hkeynotin (h ▸ hk)
        exact hanti key hkeymem k hkc hne
    have hdirs' : ∀ q ∈ (fs.dirs ++ (splitPath key).dropLast.inits),
        ∀ k ∈ keysOf rest, q ≠ splitPath k := by
      intro q hq k hk
      have hkc : k ∈ keysOf ((key, content) :: rest) :=
        keysOf_cons _ _ _ ▸ List.mem_cons_of_mem _ hk
      rcases List.mem_append.mp hq with h | h
      · exact hdirs q h k hkc
      · intro heq
        subst heq
        have hpk := (prefix_dropLast hsegne).mp ((List.mem_inits _ _).mp h)
        have hne : k ≠ key := fun h => hkeynotin (h ▸ hk)
        exact hanti k hkc key hkeymem hne hpk.1
    obtain ⟨ihv1, ihv2, ihv3⟩ := ih
      (DestFS.mk (fs.dirs ++ (splitPath key).dropLast.inits)
        (fs.filesD ++ [(splitPath key, content)]))
      hnd' hanti' hfiles' hdirs'
    rw [hstep]
    refine ⟨ihv1, ?_, fun q => ?_⟩
    · rw [ihv2]
      simp
    · rw [ihv3 q]
      have hiff : q ∈ (splitPath key).dropLast.inits ↔
          (q <+: splitPath key ∧ q ≠ splitPath key) := by
        rw [List.mem_inits, prefix_dropLast hsegne]
      constructor
      · rintro (hq | ⟨k, hk, hpk⟩)
        · rcases List.mem_append.mp hq with h | h
          · exact Or.inl h
          · exact Or.inr ⟨key, hkeymem, hiff.mp h⟩
        · exact Or.inr ⟨k, keysOf_cons _ _ _ ▸ List.mem_cons_of_mem _ hk, hpk⟩
      · rintro (hq | ⟨k, hk, hpk⟩)
        · exact Or.inl (List.mem_append_left _ hq)
        · rcases List.mem_cons.mp (keysOf_cons _ _ _ ▸ hk) with heq | hmem
          · subst heq
            exact Or.inl (List.mem_append_right _ (hiff.mpr hpk))
          · exact Or.inr ⟨k, hmem, hpk⟩

/-- Claim C8: materializing a template (with unique, well-formed,
pairwise non-nested keys) into an absent destination succeeds, the
resulting file table is exactly the template's key→content mapping
(keys read as segment paths — no extra files appear), the destination
root exists, and every intermediate directory implied by a key
exists. -/
theorem c8_materialize_roundtrip (t : Template)
    (hnd : (keysOf t).Nodup)
    (_hvalid : ∀ k ∈ keysOf t, ∀ seg ∈ splitPath k,
      seg ≠ [] ∧ seg ≠ ['.'] ∧ seg ≠ ['.', '.'])
    (hanti : ∀ k1 ∈ keysOf t, ∀ k2 ∈ keysOf t, k1 ≠ k2 →
      ¬ splitPath k1 <+: splitPath k2) :
    (copy_to t { dirs := [], filesD := [] }).1 = Except.ok () ∧
    (copy_to t { dirs := [], filesD := [] }).2.filesD =
      t.map (fun kv => (splitPath kv.1, kv.2)) ∧
    [] ∈ (copy_to t { dirs := [], filesD := [] }).2.dirs ∧
    (∀ k ∈ keysOf t, ∀ q, q <+: splitPath k → q ≠ splitPath k →
      q ∈ (copy_to t { dirs := [], filesD := [] }).2.dirs) := by
  have h0 : create_dir_all ([] : FPath) { dirs := [], filesD := [] } =
      Except.ok { dirs := [[]], filesD := [] } := rfl
  have hct : copy_to t { dirs := [], filesD := [] } =
      copy_files t { dirs := [[]], filesD := [] } := by
    rw [copy_to, h0]
  obtain ⟨h1, h2, h3⟩ := copy_files_spec t { dirs := [[]], filesD := [] } hnd hanti
    (fun kv hkv => absurd hkv (by simp))
    (by
      intro q hq k _
      have hq' : q = [] := by simpa using hq
      subst hq'
      exact fun h => splitRel_ne_nil k.data h.symm)
  rw [hct]
  refine ⟨h1, by rw [h2]; simp, ?_, ?_⟩
  · rw [h3]
    exact Or.inl (by simp)
  · intro k hk q hq hne
    rw [h3]
    exact Or.inr ⟨k, hk, hq, hne⟩

/-- Witness for C8: the template `{main.cpp ↦ A, lib/utils.hpp ↦ B}`
materializes into an absent destination and reads back exactly. -/
theorem c8_materialize_roundtrip_witness :
    ((keysOf tplNested).Nodup ∧
      (∀ k1 ∈ keysOf tplNested, ∀ k2 ∈ keysOf tplNested, k1 ≠ k2 →
        ¬ splitPath k1 <+: splitPath k2)) ∧
    (copy_to tplNested { dirs := [], filesD := [] }).1 = Except.ok () ∧
    (copy_to tplNested { dirs := [], filesD := [] }).2.filesD =
      tplNested.map (fun kv => (splitPath kv.1, kv.2)) :=
  ⟨⟨by decide, by decide⟩,
    (c8_materialize_roundtrip tplNested (by decide) (by decide) (by decide)).1,
    (c8_materialize_roundtrip tplNested (by decide) (by decide) (by decide)).2.1⟩

end ProconRs
